import Mathlib

/-!
Shallow embedding of `sdxl_train_network.py` (class `SdxlNetworkTrainer`):
the SDXL conditioning-and-caching core of the training driver.

Modelling conventions:
* devices and numeric dtypes are enumerated values; a model (vae, unet,
  text encoder) is its residency record (device, dtype);
* torch tensors are records of (shape, dtype, device, data); `.to` moves
  update the device / dtype fields and keep the data;
* external collaborators (`train_util.get_hidden_states_sdxl`,
  `sdxl_train_util.get_size_embeddings`, the unet forward, the dataset's
  caching pass) are universally quantified function parameters;
* Python `assert`/`KeyError` failures become `Except` errors.
-/

/-- Numeric dtypes relevant to the trainer. -/
inductive DType where
  | float32
  | float16
  | bfloat16
deriving DecidableEq, Repr

/-- Compute locations. -/
inductive Device where
  | cpu
  | cuda
  | xpu
deriving DecidableEq, Repr

/-- Residency record of one large model (vae, unet or a text encoder):
which device it sits on and in which dtype its weights are held. -/
structure Model where
  device : Device
  dtype : DType
deriving DecidableEq, Repr

/-- One recorded invocation of `dataset.cache_text_encoder_outputs`
(the arguments the trainer passes at the call site). -/
structure CacheCall where
  device : Device
  dtype : DType
  toDisk : Bool
  isMain : Bool
deriving DecidableEq, Repr

/-- A serialized textual-inversion embedding file, after format sniffing
and the optional `string_to_param` unnesting: the two tensors keyed
`clip_l` / `clip_g` (rows of embedding vectors) plus the basename used
as the default token label. -/
structure EmbedsFile where
  basename : String
  clip_l : List (List Int)
  clip_g : List (List Int)
deriving DecidableEq, Repr

/-- The recognized configuration options affecting this core
(`args.*` fields read by `SdxlNetworkTrainer`). -/
structure Args where
  cache_text_encoder_outputs : Bool
  cache_text_encoder_outputs_to_disk : Bool
  network_train_unet_only : Bool
  lowram : Bool
  full_fp16 : Bool
  max_token_length : Nat
  textual_inversion_embeddings : List EmbedsFile
  textual_inversion_name : Option String
deriving DecidableEq, Repr

/-- Mutable trainer-owned state touched by
`cache_text_encoder_outputs_if_needed`: residency of the four large
models, plus a log of dataset caching invocations. -/
structure TrainerState where
  vae : Model
  unet : Model
  te1 : Model
  te2 : Model
  cacheCalls : List CacheCall
deriving DecidableEq, Repr

/-- `SdxlNetworkTrainer.cache_text_encoder_outputs_if_needed`
(sdxl_train_network.py lines 114-151).

In CACHED mode (`args.cache_text_encoder_outputs`): when not `lowram`,
record the vae/unet devices and move both to cpu; run the dataset
caching pass (recorded in the call log); move both text encoders to cpu
with dtype float32; when not `lowram`, move vae and unet back to the
recorded devices.  In LIVE mode: move both text encoders to the
accelerator device (dtype untouched). -/
def cache_text_encoder_outputs_if_needed (args : Args) (accDevice : Device)
    (isMain : Bool) (weight_dtype : DType) (st : TrainerState) : TrainerState :=
  if args.cache_text_encoder_outputs then
    let org_vae_device := st.vae.device
    let org_unet_device := st.unet.device
    let st1 :=
      if !args.lowram then
        { st with vae := { st.vae with device := Device.cpu },
                  unet := { st.unet with device := Device.cpu } }
      else st
    let st2 := { st1 with cacheCalls := st1.cacheCalls ++
        [(⟨accDevice, weight_dtype, args.cache_text_encoder_outputs_to_disk, isMain⟩ : CacheCall)] }
    let st3 := { st2 with te1 := ⟨Device.cpu, DType.float32⟩,
                          te2 := ⟨Device.cpu, DType.float32⟩ }
    if !args.lowram then
      { st3 with vae := { st3.vae with device := org_vae_device },
                 unet := { st3.unet with device := org_unet_device } }
    else st3
  else
    { st with te1 := { st.te1 with device := accDevice },
              te2 := { st.te2 with device := accDevice } }

/-- The concrete pre-priming trainer state used in counterexamples and
witnesses: every model resident on the accelerator (cuda) in float16. -/
def stAllCuda : TrainerState :=
  ⟨⟨Device.cuda, DType.float16⟩, ⟨Device.cuda, DType.float16⟩,
   ⟨Device.cuda, DType.float16⟩, ⟨Device.cuda, DType.float16⟩, []⟩

/-- A concrete CACHED-mode configuration (caching on, unet-only training,
no lowram, fp16 training precision). -/
def argsCached : Args :=
  ⟨true, false, true, false, false, 75, [], none⟩

/-- C1 counterexample: in CACHED mode the priming pass does NOT leave the
text encoders at the location they occupied before priming began.  With
text encoder 1 resident on cuda before priming, after priming it sits on
cpu: the code demotes both encoders to cpu unconditionally
(`text_encoders[0].to("cpu", dtype=torch.float32)`), not to their
pre-priming location. -/
theorem C1_counterexample :
    (cache_text_encoder_outputs_if_needed argsCached Device.cuda true
        DType.float16 stAllCuda).te1.device ≠ stAllCuda.te1.device := by
  decide

/-- C1 (amended): for every CACHED-mode run, after the priming pass both
text encoders are in float32 and reside on the cpu holding location,
regardless of the training numeric precision configured for the run. -/
theorem C1_priming_leaves_te_float32_on_cpu (args : Args) (accDevice : Device)
    (isMain : Bool) (weight_dtype : DType) (st : TrainerState)
    (h : args.cache_text_encoder_outputs = true) :
    (cache_text_encoder_outputs_if_needed args accDevice isMain weight_dtype st).te1 =
      ⟨Device.cpu, DType.float32⟩ ∧
    (cache_text_encoder_outputs_if_needed args accDevice isMain weight_dtype st).te2 =
      ⟨Device.cpu, DType.float32⟩ := by
  unfold cache_text_encoder_outputs_if_needed
  by_cases hl : args.lowram <;> simp [h, hl]

/-- C1 (witness): the amended theorem evaluated at a concrete CACHED-mode
configuration and state. -/
theorem C1_priming_leaves_te_float32_on_cpu_witness :
    argsCached.cache_text_encoder_outputs = true ∧
    ((cache_text_encoder_outputs_if_needed argsCached Device.cuda true
        DType.float16 stAllCuda).te1 = ⟨Device.cpu, DType.float32⟩ ∧
     (cache_text_encoder_outputs_if_needed argsCached Device.cuda true
        DType.float16 stAllCuda).te2 = ⟨Device.cpu, DType.float32⟩) :=
  ⟨by decide,
   C1_priming_leaves_te_float32_on_cpu argsCached Device.cuda true
     DType.float16 stAllCuda (by decide)⟩

/-- C7: in every CACHED-mode priming pass, the vae and the unet end in
exactly their pre-priming residency (when the relocation branch runs,
their original devices are recorded and restored after the caching step;
when `lowram` skips relocation, they are never touched), and in either
case both text encoders are demoted to cpu in float32. -/
theorem C7_priming_restores_heavy_models (args : Args) (accDevice : Device)
    (isMain : Bool) (weight_dtype : DType) (st : TrainerState)
    (h : args.cache_text_encoder_outputs = true) :
    (cache_text_encoder_outputs_if_needed args accDevice isMain weight_dtype st).vae =
      st.vae ∧
    (cache_text_encoder_outputs_if_needed args accDevice isMain weight_dtype st).unet =
      st.unet ∧
    (cache_text_encoder_outputs_if_needed args accDevice isMain weight_dtype st).te1 =
      ⟨Device.cpu, DType.float32⟩ ∧
    (cache_text_encoder_outputs_if_needed args accDevice isMain weight_dtype st).te2 =
      ⟨Device.cpu, DType.float32⟩ := by
  unfold cache_text_encoder_outputs_if_needed
  by_cases hl : args.lowram <;> simp [h, hl]

/-- C7 (witness): the restoration theorem evaluated at a concrete
CACHED-mode configuration and state with both relocation branches
represented (lowram off here; lowram on is covered by the theorem). -/
theorem C7_priming_restores_heavy_models_witness :
    argsCached.cache_text_encoder_outputs = true ∧
    ((cache_text_encoder_outputs_if_needed argsCached Device.cuda true
        DType.float16 stAllCuda).vae = stAllCuda.vae ∧
     (cache_text_encoder_outputs_if_needed argsCached Device.cuda true
        DType.float16 stAllCuda).unet = stAllCuda.unet ∧
     (cache_text_encoder_outputs_if_needed argsCached Device.cuda true
        DType.float16 stAllCuda).te1 = ⟨Device.cpu, DType.float32⟩ ∧
     (cache_text_encoder_outputs_if_needed argsCached Device.cuda true
        DType.float16 stAllCuda).te2 = ⟨Device.cpu, DType.float32⟩) :=
  ⟨by decide,
   C7_priming_restores_heavy_models argsCached Device.cuda true
     DType.float16 stAllCuda (by decide)⟩

/-! ### Textual-inversion loading (`load_textual_inversion`, lines 58-109)

The tokenizer is modelled HF-style: a vocabulary list whose positions are
the token ids.  `add_tokens` appends the strings not already present.
`convert_tokens_to_ids` is the part of the external tokenizer
implementation that the loader's assertions guard against, so the loader
is parameterized by an arbitrary converter `convert vocab strings`; the
faithful HF converter (`hfConvert`) is position lookup. -/

/-- HF-style tokenizer: vocabulary list, token id = position,
`len(tokenizer)` = vocabulary length. -/
structure Tokenizer where
  vocab : List String
deriving DecidableEq, Repr

/-- `len(tokenizer)`. -/
def Tokenizer.len (t : Tokenizer) : Nat := t.vocab.length

/-- The strings of `strs`, in order and each once, that are in neither
`vocab` nor the accumulator `acc` (the tokens `add_tokens` actually adds). -/
def addNewAux (vocab : List String) (acc : List String) : List String → List String
  | [] => acc
  | s :: rest =>
    if s ∈ vocab ∨ s ∈ acc then addNewAux vocab acc rest
    else addNewAux vocab (acc ++ [s]) rest

/-- `tokenizer.add_tokens(strings)`: append the strings not already in
the vocabulary, returning the extended tokenizer and the number of
tokens actually added. -/
def Tokenizer.addTokens (t : Tokenizer) (strs : List String) : Tokenizer × Nat :=
  let new := addNewAux t.vocab [] strs
  (⟨t.vocab ++ new⟩, new.length)

/-- Position of `s` in `v` (the vocabulary length when absent):
`convert_tokens_to_ids` of a well-behaved tokenizer, per string. -/
def vocabIndexOf (v : List String) (s : String) : Nat :=
  match v with
  | [] => 0
  | a :: t => if a = s then 0 else vocabIndexOf t s + 1

/-- The faithful converter: `convert_tokens_to_ids` as position lookup. -/
def hfConvert (vocab : List String) (strs : List String) : List Nat :=
  strs.map (vocabIndexOf vocab)

/-- The derived token labels of one embedding file:
`[token_string] + [token_string + str(i + 1) for i in range(k - 1)]`
(line 74). -/
def tiTokenStrings (token_string : String) (k : Nat) : List String :=
  token_string :: (List.range (k - 1)).map (fun i => token_string ++ toString (i + 1))

/-- The id-order assertion of lines 86-91:
`min(ids) == ids[0] and ids[-1] == ids[0] + len(ids) - 1`.
(On an empty id list Python's `min` raises; modelled as `false`.) -/
def tokenIdsOrdered : List Nat → Bool
  | [] => false
  | h :: t => (t.foldl Nat.min h == h) && ((h :: t).getLastD 0 == h + t.length)

/-- Fatal setup errors of the textual-inversion loader: the
`add_tokens`-count assertion (line 78) and the id-integrity assertions
(lines 86-93). -/
inductive TIError where
  | vocabularyConflict
  | vocabularyIntegrityError
deriving DecidableEq, Repr

/-- The tokenizer/embedding state `load_textual_inversion` mutates: the
two tokenizers and the two encoders' input-embedding weight tables
(rows of embedding vectors). -/
structure TIState where
  tok1 : Tokenizer
  tok2 : Tokenizer
  emb1 : List (List Int)
  emb2 : List (List Int)
deriving DecidableEq, Repr

/-- One iteration of the per-file loop (lines 62-99): derive the token
strings, register them in both tokenizers, check the added counts, the
id ordering and the id end positions, and return the extended
tokenizers together with the (ids, embedding rows) pair per encoder. -/
def processTIFile (convert : List String → List String → List Nat)
    (tiName : Option String) (f : EmbedsFile) (tok1 tok2 : Tokenizer) :
    Except TIError
      (Tokenizer × Tokenizer ×
        (List Nat × List (List Int)) × (List Nat × List (List Int))) :=
  let num_vectors_per_token := f.clip_l.length
  let token_string := tiName.getD f.basename
  let token_strings := tiTokenStrings token_string num_vectors_per_token
  let r1 := tok1.addTokens token_strings
  let r2 := tok2.addTokens token_strings
  if r1.2 = num_vectors_per_token ∧ r2.2 = num_vectors_per_token then
    let token_ids1 := convert r1.1.vocab token_strings
    let token_ids2 := convert r2.1.vocab token_strings
    if tokenIdsOrdered token_ids1 then
      if tokenIdsOrdered token_ids2 then
        if r1.1.len - 1 = token_ids1.getLastD 0 then
          if r2.1.len - 1 = token_ids2.getLastD 0 then
            .ok (r1.1, r2.1, (token_ids1, f.clip_l), (token_ids2, f.clip_g))
          else .error TIError.vocabularyIntegrityError
        else .error TIError.vocabularyIntegrityError
      else .error TIError.vocabularyIntegrityError
    else .error TIError.vocabularyIntegrityError
  else .error TIError.vocabularyConflict

/-- The per-file loop, accumulating `token_ids_embeds1` / `..2`. -/
def loadTILoop (convert : List String → List String → List Nat)
    (tiName : Option String) :
    List EmbedsFile → Tokenizer → Tokenizer →
    List (List Nat × List (List Int)) → List (List Nat × List (List Int)) →
    Except TIError
      (Tokenizer × Tokenizer ×
        List (List Nat × List (List Int)) × List (List Nat × List (List Int)))
  | [], t1, t2, a1, a2 => .ok (t1, t2, a1, a2)
  | f :: rest, t1, t2, a1, a2 =>
    match processTIFile convert tiName f t1 t2 with
    | .error e => .error e
    | .ok (t1', t2', p1, p2) =>
      loadTILoop convert tiName rest t1' t2' (a1 ++ [p1]) (a2 ++ [p2])

/-- `resize_token_embeddings(n)`: keep the existing rows below `n`,
fill the rows from the old length up to `n` with the (unspecified)
initializer `fill`. -/
def resizeEmb (tbl : List (List Int)) (n : Nat) (fill : Nat → List Int) :
    List (List Int) :=
  (List.range n).map (fun i => tbl.getD i (fill i))

/-- `for token_id, embed in zip(token_ids, embeds): table[token_id] = embed`
(lines 104-109, one accumulated pair). -/
def writeEmbeds (tbl : List (List Int)) (p : List Nat × List (List Int)) :
    List (List Int) :=
  (p.1.zip p.2).foldl (fun t q => t.set q.1 q.2) tbl

/-- All accumulated overwrites of one encoder's embedding table. -/
def writePairs (tbl : List (List Int)) (ps : List (List Nat × List (List Int))) :
    List (List Int) :=
  ps.foldl writeEmbeds tbl

/-- `SdxlNetworkTrainer.load_textual_inversion` (lines 58-109):
process every embedding file (first failing assertion aborts), then
resize both encoders' embedding tables to the new vocabulary sizes and
overwrite the assigned rows with the loaded vectors.  `fill1` / `fill2`
are the unspecified initializers of newly grown rows. -/
def load_textual_inversion (convert : List String → List String → List Nat)
    (fill1 fill2 : Nat → List Int) (args : Args) (st : TIState) :
    Except TIError TIState :=
  if args.textual_inversion_embeddings.isEmpty then .ok st
  else
    match loadTILoop convert args.textual_inversion_name
        args.textual_inversion_embeddings st.tok1 st.tok2 [] [] with
    | .error e => .error e
    | .ok (t1, t2, a1, a2) =>
      .ok ⟨t1, t2,
           writePairs (resizeEmb st.emb1 t1.len fill1) a1,
           writePairs (resizeEmb st.emb2 t2.len fill2) a2⟩

/-! ### Supporting lemmas on the tokenizer and table primitives -/

theorem addNewAux_length_le (v : List String) :
    ∀ (strs acc : List String), (addNewAux v acc strs).length ≤ acc.length + strs.length := by
  intro strs
  induction strs with
  | nil => intro acc; simp [addNewAux]
  | cons s rest ih =>
    intro acc
    by_cases h : s ∈ v ∨ s ∈ acc
    · simp only [addNewAux, if_pos h]
      have := ih acc
      simp only [List.length_cons]
      omega
    · simp only [addNewAux, if_neg h]
      have := ih (acc ++ [s])
      simp only [List.length_append, List.length_singleton] at this
      simp only [List.length_cons]
      omega

theorem addNewAux_length_lt (v : List String) :
    ∀ (strs acc : List String) (s : String), s ∈ strs → s ∈ v →
      (addNewAux v acc strs).length < acc.length + strs.length := by
  intro strs
  induction strs with
  | nil => intro acc s hs; simp at hs
  | cons a rest ih =>
    intro acc s hs hv
    rcases List.mem_cons.mp hs with rfl | hs
    · simp only [addNewAux, if_pos (Or.inl hv)]
      have := addNewAux_length_le v rest acc
      simp only [List.length_cons]
      omega
    · by_cases h : a ∈ v ∨ a ∈ acc
      · simp only [addNewAux, if_pos h]
        have := ih acc s hs hv
        simp only [List.length_cons]
        omega
      · simp only [addNewAux, if_neg h]
        have := ih (acc ++ [a]) s hs hv
        simp only [List.length_append, List.length_singleton] at this
        simp only [List.length_cons]
        omega

theorem addNewAux_fresh (v : List String) :
    ∀ (strs acc : List String), strs.Nodup →
      (∀ s ∈ strs, s ∉ v ∧ s ∉ acc) → addNewAux v acc strs = acc ++ strs := by
  intro strs
  induction strs with
  | nil => intro acc _ _; simp [addNewAux]
  | cons a rest ih =>
    intro acc hnd hfr
    have ha := hfr a (List.mem_cons_self a rest)
    have hcond : ¬(a ∈ v ∨ a ∈ acc) := by
      intro h; rcases h with h | h
      · exact ha.1 h
      · exact ha.2 h
    simp only [addNewAux, if_neg hcond]
    have hnd' := (List.nodup_cons.mp hnd).2
    have hane := (List.nodup_cons.mp hnd).1
    have : addNewAux v (acc ++ [a]) rest = (acc ++ [a]) ++ rest := by
      apply ih (acc ++ [a]) hnd'
      intro s hs
      refine ⟨(hfr s (List.mem_cons_of_mem a hs)).1, ?_⟩
      intro hmem
      rcases List.mem_append.mp hmem with h | h
      · exact (hfr s (List.mem_cons_of_mem a hs)).2 h
      · simp only [List.mem_singleton] at h
        subst h
        exact hane hs
    rw [this, List.append_assoc, List.singleton_append]

theorem addTokens_fresh (t : Tokenizer) (strs : List String)
    (hnd : strs.Nodup) (hfr : ∀ s ∈ strs, s ∉ t.vocab) :
    t.addTokens strs = (⟨t.vocab ++ strs⟩, strs.length) := by
  unfold Tokenizer.addTokens
  have : addNewAux t.vocab [] strs = [] ++ strs := by
    apply addNewAux_fresh t.vocab strs [] hnd
    intro s hs
    exact ⟨hfr s hs, by simp⟩
  simp only [this, List.nil_append]

theorem addTokens_count_lt (t : Tokenizer) (strs : List String) (s : String)
    (hs : s ∈ strs) (hv : s ∈ t.vocab) :
    (t.addTokens strs).2 < strs.length := by
  unfold Tokenizer.addTokens
  have := addNewAux_length_lt t.vocab strs [] s hs hv
  simpa using this

theorem vocabIndexOf_append_of_not_mem (w : List String) (s : String) :
    ∀ v : List String, s ∉ v → vocabIndexOf (v ++ w) s = v.length + vocabIndexOf w s := by
  intro v
  induction v with
  | nil => intro _; simp [vocabIndexOf]
  | cons a tl ih =>
    intro h
    have hne : ¬(a = s) := by
      intro he; exact h (he ▸ List.mem_cons_self a tl)
    have h' : s ∉ tl := fun hm => h (List.mem_cons_of_mem a hm)
    rw [List.cons_append]
    show (if a = s then 0 else vocabIndexOf (tl ++ w) s + 1) = (a :: tl).length + vocabIndexOf w s
    rw [if_neg hne, ih h', List.length_cons]
    omega

theorem vocabIndexOf_self (s : String) (tl : List String) :
    vocabIndexOf (s :: tl) s = 0 := by
  simp [vocabIndexOf]

theorem hfConvert_fresh :
    ∀ (strs v : List String), strs.Nodup → (∀ s ∈ strs, s ∉ v) →
      hfConvert (v ++ strs) strs = List.range' v.length strs.length := by
  intro strs
  induction strs with
  | nil => intro v _ _; simp [hfConvert]
  | cons a rest ih =>
    intro v hnd hfr
    have hav : a ∉ v := hfr a (List.mem_cons_self a rest)
    have hane := (List.nodup_cons.mp hnd).1
    have hnd' := (List.nodup_cons.mp hnd).2
    have hhead : vocabIndexOf (v ++ a :: rest) a = v.length := by
      rw [vocabIndexOf_append_of_not_mem (a :: rest) a v hav, vocabIndexOf_self]
      omega
    have hassoc : v ++ a :: rest = (v ++ [a]) ++ rest := by
      rw [List.append_assoc, List.singleton_append]
    have htail : hfConvert ((v ++ [a]) ++ rest) rest =
        List.range' (v.length + 1) rest.length := by
      have := ih (v ++ [a]) hnd' ?_
      · simp only [List.length_append, List.length_singleton] at this
        exact this
      · intro s hs
        intro hm
        rcases List.mem_append.mp hm with h | h
        · exact hfr s (List.mem_cons_of_mem a hs) h
        · simp only [List.mem_singleton] at h
          subst h
          exact hane hs
    simp only [hfConvert, List.map_cons, hhead]
    have : rest.map (vocabIndexOf (v ++ a :: rest)) = List.range' (v.length + 1) rest.length := by
      rw [hassoc]
      exact htail
    rw [this, List.length_cons, List.range'_succ]

theorem foldl_min_of_le (h : Nat) :
    ∀ t : List Nat, (∀ x ∈ t, h ≤ x) → t.foldl Nat.min h = h := by
  intro t
  induction t generalizing h with
  | nil => intro _; rfl
  | cons a tl ih =>
    intro hle
    have h1 : h ≤ a := hle a (List.mem_cons_self a tl)
    simp only [List.foldl_cons, Nat.min_eq_left h1]
    exact ih h fun x hx => hle x (List.mem_cons_of_mem a hx)

theorem range'_getLastD :
    ∀ (k n d : Nat), (List.range' n (k + 1)).getLastD d = n + k := by
  intro k
  induction k with
  | zero => intro n d; rfl
  | succ k ih =>
    intro n d
    rw [List.range'_succ]
    have hcons : ∀ (a : Nat) (l : List Nat) (d' : Nat),
        (a :: l).getLastD d' = l.getLastD a := by
      intro a l d'; cases l <;> rfl
    rw [hcons n (List.range' (n + 1) (k + 1)) d, ih (n + 1) n]
    omega

theorem tokenIdsOrdered_range' (n : Nat) :
    ∀ k, 1 ≤ k → tokenIdsOrdered (List.range' n k) = true := by
  intro k hk
  obtain ⟨k', rfl⟩ : ∃ k', k = k' + 1 := ⟨k - 1, by omega⟩
  rw [List.range'_succ]
  have h1 : (List.range' (n + 1) k').foldl Nat.min n = n := by
    apply foldl_min_of_le
    intro x hx
    have := (List.mem_range'_1.mp hx).1
    omega
  have h2 : (n :: List.range' (n + 1) k').getLastD 0 = n + k' := by
    have := range'_getLastD k' n 0
    rw [List.range'_succ] at this
    exact this
  simp only [tokenIdsOrdered, h1, h2, List.length_range']
  simp

theorem foldlSet_length :
    ∀ (ps : List (Nat × List Int)) (tbl : List (List Int)),
      (ps.foldl (fun t q => t.set q.1 q.2) tbl).length = tbl.length := by
  intro ps
  induction ps with
  | nil => intro tbl; rfl
  | cons p rest ih =>
    intro tbl
    simp only [List.foldl_cons, ih, List.length_set]

theorem writeEmbeds_length (tbl : List (List Int)) (p : List Nat × List (List Int)) :
    (writeEmbeds tbl p).length = tbl.length := by
  unfold writeEmbeds
  exact foldlSet_length _ tbl

theorem writeEmbeds_getD_below :
    ∀ (k : Nat) (es : List (List Int)) (n : Nat) (tbl : List (List Int)) (i : Nat),
      i < n → (writeEmbeds tbl (List.range' n k, es)).getD i [] = tbl.getD i [] := by
  intro k
  induction k with
  | zero => intro es n tbl i _; cases es <;> rfl
  | succ k ih =>
    intro es n tbl i hi
    cases es with
    | nil => rfl
    | cons e es' =>
      rw [List.range'_succ]
      show (writeEmbeds (tbl.set n e) (List.range' (n + 1) k, es')).getD i [] = tbl.getD i []
      rw [ih es' (n + 1) (tbl.set n e) i (by omega)]
      rw [List.getD_eq_getElem?_getD, List.getD_eq_getElem?_getD,
        List.getElem?_set_ne (by omega : n ≠ i)]

theorem writeEmbeds_getD_above :
    ∀ (k : Nat) (es : List (List Int)) (n : Nat) (tbl : List (List Int)) (i : Nat),
      n + es.length ≤ i →
      (writeEmbeds tbl (List.range' n k, es)).getD i [] = tbl.getD i [] := by
  intro k
  induction k with
  | zero => intro es n tbl i _; cases es <;> rfl
  | succ k ih =>
    intro es n tbl i hi
    cases es with
    | nil => rfl
    | cons e es' =>
      rw [List.range'_succ]
      show (writeEmbeds (tbl.set n e) (List.range' (n + 1) k, es')).getD i [] = tbl.getD i []
      have hlen : e :: es' ≠ [] := by simp
      rw [ih es' (n + 1) (tbl.set n e) i (by simp only [List.length_cons] at hi; omega)]
      rw [List.getD_eq_getElem?_getD, List.getD_eq_getElem?_getD,
        List.getElem?_set_ne (by simp only [List.length_cons] at hi; omega : n ≠ i)]

theorem writeEmbeds_getD_hit :
    ∀ (k : Nat) (es : List (List Int)) (n : Nat) (tbl : List (List Int)) (j : Nat),
      j < k → j < es.length → n + j < tbl.length →
      (writeEmbeds tbl (List.range' n k, es)).getD (n + j) [] = es.getD j [] := by
  intro k
  induction k with
  | zero => intro es n tbl j hj; omega
  | succ k ih =>
    intro es n tbl j hj hje hjt
    cases es with
    | nil => simp at hje
    | cons e es' =>
      rw [List.range'_succ]
      show (writeEmbeds (tbl.set n e) (List.range' (n + 1) k, es')).getD (n + j) [] =
        (e :: es').getD j []
      cases j with
      | zero =>
        simp only [Nat.add_zero]
        rw [writeEmbeds_getD_below k es' (n + 1) (tbl.set n e) n (by omega)]
        have hn : n < tbl.length := by omega
        rw [List.getD_eq_getElem?_getD, List.getElem?_set_eq_of_lt e hn]
        rfl
      | succ j' =>
        have : n + (j' + 1) = (n + 1) + j' := by omega
        rw [this]
        rw [ih es' (n + 1) (tbl.set n e) j' (by omega)
          (by simp only [List.length_cons] at hje; omega)
          (by simp only [List.length_set]; omega)]
        rfl

theorem resizeEmb_length (tbl : List (List Int)) (n : Nat) (fill : Nat → List Int) :
    (resizeEmb tbl n fill).length = n := by
  simp [resizeEmb]

theorem resizeEmb_getD (tbl : List (List Int)) (n : Nat) (fill : Nat → List Int)
    (i : Nat) (hi : i < n) :
    (resizeEmb tbl n fill).getD i [] = tbl.getD i (fill i) := by
  unfold resizeEmb
  rw [List.getD_eq_getElem?_getD, List.getElem?_map, List.getElem?_range hi]
  rfl

theorem tiTokenStrings_length (s : String) (k : Nat) (hk : 1 ≤ k) :
    (tiTokenStrings s k).length = k := by
  simp [tiTokenStrings]
  omega

theorem processTIFile_fresh_hf (tiName : Option String) (f : EmbedsFile)
    (tok1 tok2 : Tokenizer) (strs : List String)
    (hstrs : strs = tiTokenStrings (tiName.getD f.basename) f.clip_l.length)
    (hk : 1 ≤ f.clip_l.length)
    (hnd : strs.Nodup)
    (hf1 : ∀ s ∈ strs, s ∉ tok1.vocab) (hf2 : ∀ s ∈ strs, s ∉ tok2.vocab) :
    processTIFile hfConvert tiName f tok1 tok2 =
      .ok (⟨tok1.vocab ++ strs⟩, ⟨tok2.vocab ++ strs⟩,
        (List.range' tok1.vocab.length f.clip_l.length, f.clip_l),
        (List.range' tok2.vocab.length f.clip_l.length, f.clip_g)) := by
  have hlen : strs.length = f.clip_l.length := by
    rw [hstrs]; exact tiTokenStrings_length _ _ hk
  have hadd1 := addTokens_fresh tok1 strs hnd hf1
  have hadd2 := addTokens_fresh tok2 strs hnd hf2
  have hconv1 : hfConvert (tok1.vocab ++ strs) strs =
      List.range' tok1.vocab.length f.clip_l.length := by
    rw [hfConvert_fresh strs tok1.vocab hnd hf1, hlen]
  have hconv2 : hfConvert (tok2.vocab ++ strs) strs =
      List.range' tok2.vocab.length f.clip_l.length := by
    rw [hfConvert_fresh strs tok2.vocab hnd hf2, hlen]
  have hord1 : tokenIdsOrdered (List.range' tok1.vocab.length f.clip_l.length) = true :=
    tokenIdsOrdered_range' _ _ hk
  have hord2 : tokenIdsOrdered (List.range' tok2.vocab.length f.clip_l.length) = true :=
    tokenIdsOrdered_range' _ _ hk
  obtain ⟨k', hk'⟩ : ∃ k', f.clip_l.length = k' + 1 := ⟨f.clip_l.length - 1, by omega⟩
  have hlast1 : (List.range' tok1.vocab.length f.clip_l.length).getLastD 0 =
      tok1.vocab.length + f.clip_l.length - 1 := by
    rw [hk', range'_getLastD k' tok1.vocab.length 0]
    omega
  have hlast2 : (List.range' tok2.vocab.length f.clip_l.length).getLastD 0 =
      tok2.vocab.length + f.clip_l.length - 1 := by
    rw [hk', range'_getLastD k' tok2.vocab.length 0]
    omega
  rw [List.getLastD_eq_getLast?] at hlast1 hlast2
  simp [processTIFile, ← hstrs, hadd1, hadd2, hconv1, hconv2, hord1, hord2,
    hlast1, hlast2, Tokenizer.len, hlen]

theorem load_ti_single_fresh_hf (fill1 fill2 : Nat → List Int) (args : Args)
    (f : EmbedsFile) (st : TIState) (strs : List String)
    (hfe : args.textual_inversion_embeddings = [f])
    (hstrs : strs = tiTokenStrings (args.textual_inversion_name.getD f.basename)
      f.clip_l.length)
    (hk : 1 ≤ f.clip_l.length)
    (hnd : strs.Nodup)
    (hf1 : ∀ s ∈ strs, s ∉ st.tok1.vocab) (hf2 : ∀ s ∈ strs, s ∉ st.tok2.vocab) :
    load_textual_inversion hfConvert fill1 fill2 args st =
      .ok ⟨⟨st.tok1.vocab ++ strs⟩, ⟨st.tok2.vocab ++ strs⟩,
        writeEmbeds (resizeEmb st.emb1 (st.tok1.len + f.clip_l.length) fill1)
          (List.range' st.tok1.len f.clip_l.length, f.clip_l),
        writeEmbeds (resizeEmb st.emb2 (st.tok2.len + f.clip_l.length) fill2)
          (List.range' st.tok2.len f.clip_l.length, f.clip_g)⟩ := by
  have hp := processTIFile_fresh_hf args.textual_inversion_name f st.tok1 st.tok2
    strs hstrs hk hnd hf1 hf2
  have hlen : strs.length = f.clip_l.length := by
    rw [hstrs]; exact tiTokenStrings_length _ _ hk
  unfold load_textual_inversion
  rw [hfe]
  simp only [List.isEmpty_cons, Bool.false_eq_true, if_false, loadTILoop, hp]
  simp [writePairs, Tokenizer.len, hlen]

/-! ### Concrete textual-inversion instances for counterexamples and witnesses -/

/-- A five-token starting vocabulary shared by both tokenizers. -/
def vocabFive : List String := ["a", "b", "c", "d", "e"]

/-- Initial tokenizer/embedding state: five vocabulary entries and one
embedding row per entry in each encoder. -/
def stTIInit : TIState :=
  ⟨⟨vocabFive⟩, ⟨vocabFive⟩,
   [[0], [1], [2], [3], [4]], [[0], [1], [2], [3], [4]]⟩

/-- A well-formed embedding file: 4 vectors per token, matching row
counts in `clip_l` and `clip_g`. -/
def fileTok4 : EmbedsFile := ⟨"tok", [[10], [11], [12], [13]], [[20], [21], [22], [23]]⟩

/-- A mismatched embedding file: `clip_l` has 2 rows, `clip_g` only 1. -/
def fileMismatch : EmbedsFile := ⟨"tok", [[10], [11]], [[20]]⟩

/-- A configuration whose only relevant content is the textual-inversion
file list (no name override). -/
def argsWithTI (fs : List EmbedsFile) : Args :=
  ⟨false, false, true, false, false, 75, fs, none⟩

/-- A concrete row initializer for newly grown embedding rows, chosen so
its values are distinguishable from every loaded vector. -/
def fillRow : Nat → List Int := fun i => [100 + (i : Int)]

/-- The derived token strings of `fileTok4`. -/
def strsTok4 : List String := ["tok", "tok1", "tok2", "tok3"]

/-- A converter (external tokenizer id assignment) that reports the new
ids in non-ascending order `[5, 7, 6, 8]`. -/
def badConvert : List String → List String → List Nat := fun _ _ => [5, 7, 6, 8]

/-- A converter whose assignment `[5, 6, 7, 9]` violates the endpoint
conditions (its last id is not `new_vocab_size - 1`). -/
def badEndConvert : List String → List String → List Nat := fun _ _ => [5, 6, 7, 9]

/-- C2 counterexample: the loader does NOT fail on every id assignment
that violates contiguity/ascending order.  Registering `fileTok4` over a
5-token vocabulary must, per the claim, yield exactly the ascending
contiguous ids `[5, 6, 7, 8]`; the assignment `[5, 7, 6, 8]` returned by
`badConvert` violates ascending order, yet the load succeeds, because
the code only checks `min(ids) == ids[0]`,
`ids[-1] == ids[0] + len(ids) - 1` and `ids[-1] == len(tokenizer) - 1`
(lines 86-93), which `[5, 7, 6, 8]` satisfies. -/
theorem C2_counterexample :
    (load_textual_inversion badConvert fillRow fillRow
        (argsWithTI [fileTok4]) stTIInit).isOk = true ∧
    badConvert (stTIInit.tok1.addTokens strsTok4).1.vocab strsTok4 ≠ [5, 6, 7, 8] := by
  decide

/-- C2 (amended): for every id assignment the external tokenizer can
report, the loader requires, per tokenizer, exactly the endpoint
conditions of lines 86-93: the first id is the minimum, the last id
equals first + count - 1, and the last id equals the new vocabulary
size - 1; an assignment violating any of them (or an empty assignment)
fails the load with VocabularyIntegrityError.  (Assignments meeting the
endpoint conditions are accepted even when not ascending, per the
counterexample.) -/
theorem C2_integrity_endpoint_checks
    (convert : List String → List String → List Nat)
    (fill1 fill2 : Nat → List Int) (args : Args) (f : EmbedsFile)
    (rest : List EmbedsFile) (st : TIState) (strs : List String)
    (hfe : args.textual_inversion_embeddings = f :: rest)
    (hstrs : strs = tiTokenStrings (args.textual_inversion_name.getD f.basename)
      f.clip_l.length)
    (hadd1 : (st.tok1.addTokens strs).2 = f.clip_l.length)
    (hadd2 : (st.tok2.addTokens strs).2 = f.clip_l.length)
    (hviol : ¬(tokenIdsOrdered (convert (st.tok1.addTokens strs).1.vocab strs) = true ∧
      tokenIdsOrdered (convert (st.tok2.addTokens strs).1.vocab strs) = true ∧
      (st.tok1.addTokens strs).1.len - 1 =
        (convert (st.tok1.addTokens strs).1.vocab strs).getLastD 0 ∧
      (st.tok2.addTokens strs).1.len - 1 =
        (convert (st.tok2.addTokens strs).1.vocab strs).getLastD 0)) :
    load_textual_inversion convert fill1 fill2 args st =
      Except.error TIError.vocabularyIntegrityError := by
  have hproc : processTIFile convert args.textual_inversion_name f st.tok1 st.tok2 =
      Except.error TIError.vocabularyIntegrityError := by
    simp only [processTIFile]
    rw [← hstrs]
    rw [if_pos ⟨hadd1, hadd2⟩]
    simp only [List.getLastD_eq_getLast?] at hviol
    by_cases c1 : tokenIdsOrdered (convert (st.tok1.addTokens strs).1.vocab strs) = true
    · by_cases c2 : tokenIdsOrdered (convert (st.tok2.addTokens strs).1.vocab strs) = true
      · by_cases c3 : (st.tok1.addTokens strs).1.len - 1 =
            (convert (st.tok1.addTokens strs).1.vocab strs).getLast?.getD 0
        · by_cases c4 : (st.tok2.addTokens strs).1.len - 1 =
              (convert (st.tok2.addTokens strs).1.vocab strs).getLast?.getD 0
          · exact absurd ⟨c1, c2, c3, c4⟩ hviol
          · simp [c1, c2, c3, c4]
        · simp [c1, c2, c3]
      · simp [c1, c2]
    · simp [c1]
  unfold load_textual_inversion
  rw [hfe]
  simp only [List.isEmpty_cons, Bool.false_eq_true, if_false, loadTILoop, hproc]

/-- C2 (witness): the amended theorem applied to a concrete assignment
`[5, 6, 7, 9]` that violates the endpoint conditions. -/
theorem C2_integrity_endpoint_checks_witness :
    (stTIInit.tok1.addTokens strsTok4).2 = fileTok4.clip_l.length ∧
    ¬(tokenIdsOrdered (badEndConvert (stTIInit.tok1.addTokens strsTok4).1.vocab strsTok4) = true ∧
      tokenIdsOrdered (badEndConvert (stTIInit.tok2.addTokens strsTok4).1.vocab strsTok4) = true ∧
      (stTIInit.tok1.addTokens strsTok4).1.len - 1 =
        (badEndConvert (stTIInit.tok1.addTokens strsTok4).1.vocab strsTok4).getLastD 0 ∧
      (stTIInit.tok2.addTokens strsTok4).1.len - 1 =
        (badEndConvert (stTIInit.tok2.addTokens strsTok4).1.vocab strsTok4).getLastD 0) ∧
    load_textual_inversion badEndConvert fillRow fillRow
      (argsWithTI [fileTok4]) stTIInit = Except.error TIError.vocabularyIntegrityError :=
  ⟨by decide, by decide,
   C2_integrity_endpoint_checks badEndConvert fillRow fillRow (argsWithTI [fileTok4])
     fileTok4 [] stTIInit strsTok4 rfl (by decide) (by decide) (by decide) (by decide)⟩

/-- C8: registering an embedding file whose base label or any derived
label is already present in either tokenizer's vocabulary fails with
VocabularyConflict (the `add_tokens` count assertion of line 78), for
every id-assignment behaviour of the external tokenizer. -/
theorem C8_duplicate_label_conflict
    (convert : List String → List String → List Nat)
    (fill1 fill2 : Nat → List Int) (args : Args) (f : EmbedsFile)
    (rest : List EmbedsFile) (st : TIState)
    (hfe : args.textual_inversion_embeddings = f :: rest)
    (hk : 1 ≤ f.clip_l.length)
    (hmem : ∃ s ∈ tiTokenStrings (args.textual_inversion_name.getD f.basename)
        f.clip_l.length, s ∈ st.tok1.vocab ∨ s ∈ st.tok2.vocab) :
    load_textual_inversion convert fill1 fill2 args st =
      Except.error TIError.vocabularyConflict := by
  obtain ⟨s, hs, hv⟩ := hmem
  have hslen := tiTokenStrings_length
    (args.textual_inversion_name.getD f.basename) f.clip_l.length hk
  have hcond : ¬((st.tok1.addTokens (tiTokenStrings
        (args.textual_inversion_name.getD f.basename) f.clip_l.length)).2 =
          f.clip_l.length ∧
      (st.tok2.addTokens (tiTokenStrings
        (args.textual_inversion_name.getD f.basename) f.clip_l.length)).2 =
          f.clip_l.length) := by
    rcases hv with hv | hv
    · intro hc
      have hlt := addTokens_count_lt st.tok1 (tiTokenStrings
        (args.textual_inversion_name.getD f.basename) f.clip_l.length) s hs hv
      rw [hslen] at hlt
      omega
    · intro hc
      have hlt := addTokens_count_lt st.tok2 (tiTokenStrings
        (args.textual_inversion_name.getD f.basename) f.clip_l.length) s hs hv
      rw [hslen] at hlt
      omega
  have hproc : processTIFile convert args.textual_inversion_name f st.tok1 st.tok2 =
      Except.error TIError.vocabularyConflict := by
    simp only [processTIFile]
    rw [if_neg hcond]
  unfold load_textual_inversion
  rw [hfe]
  simp only [List.isEmpty_cons, Bool.false_eq_true, if_false, loadTILoop, hproc]

/-- The state after one successful load of `fileTok4` over `stTIInit`. -/
def stTIAfter : TIState :=
  ⟨⟨["a", "b", "c", "d", "e", "tok", "tok1", "tok2", "tok3"]⟩,
   ⟨["a", "b", "c", "d", "e", "tok", "tok1", "tok2", "tok3"]⟩,
   [[0], [1], [2], [3], [4], [10], [11], [12], [13]],
   [[0], [1], [2], [3], [4], [20], [21], [22], [23]]⟩

/-- C8 (witness): a first load of `fileTok4` succeeds and produces
`stTIAfter`; re-running the same file on the resulting state satisfies
the duplicate-label hypothesis, and by the theorem the second load fails
with VocabularyConflict. -/
theorem C8_duplicate_label_conflict_witness :
    load_textual_inversion hfConvert fillRow fillRow
      (argsWithTI [fileTok4]) stTIInit = Except.ok stTIAfter ∧
    1 ≤ fileTok4.clip_l.length ∧
    (∃ s ∈ tiTokenStrings (((argsWithTI [fileTok4]).textual_inversion_name).getD
        fileTok4.basename) fileTok4.clip_l.length,
      s ∈ stTIAfter.tok1.vocab ∨ s ∈ stTIAfter.tok2.vocab) ∧
    load_textual_inversion hfConvert fillRow fillRow
      (argsWithTI [fileTok4]) stTIAfter = Except.error TIError.vocabularyConflict :=
  ⟨by rfl, by decide, by decide,
   C8_duplicate_label_conflict hfConvert fillRow fillRow (argsWithTI [fileTok4])
     fileTok4 [] stTIAfter rfl (by decide) (by decide)⟩

theorem getD_irrel (l : List (List Int)) (i : Nat) (d1 d2 : List Int)
    (h : i < l.length) : l.getD i d1 = l.getD i d2 := by
  rw [List.getD_eq_getElem?_getD, List.getD_eq_getElem?_getD, List.getElem?_eq_getElem h]
  rfl

theorem getD_out (l : List (List Int)) (i : Nat) (d : List Int)
    (h : l.length ≤ i) : l.getD i d = d := by
  rw [List.getD_eq_getElem?_getD, List.getElem?_eq_none h]
  rfl

/-! ### Multi-file load machinery: all files are registered in order,
the tables are resized once to the final vocabulary size, and every
file's accumulated (ids, rows) pairs are written (lines 100-109). -/

/-- The fallback embedding file for `List.getD` lookups. -/
def noFile : EmbedsFile := ⟨"", [], []⟩

/-- Total number of newly assigned ids of a file list: the sum of the
files' `clip_l` row counts. -/
def sumKL : List EmbedsFile → Nat
  | [] => 0
  | f :: rest => f.clip_l.length + sumKL rest

/-- All derived token strings of a file list, in registration order. -/
def tiAllStrings (tiName : Option String) : List EmbedsFile → List String
  | [] => []
  | f :: rest =>
    tiTokenStrings (tiName.getD f.basename) f.clip_l.length ++ tiAllStrings tiName rest

/-- The accumulated (ids, embedding rows) pairs of a file list under the
well-behaved tokenizer, for the encoder tensor selected by `sel`:
file `m`'s ids are the contiguous block of `clip_l`-count ids starting
right after all previous blocks. -/
def tiPairsBy (sel : EmbedsFile → List (List Int)) (n : Nat) :
    List EmbedsFile → List (List Nat × List (List Int))
  | [] => []
  | f :: rest =>
    (List.range' n f.clip_l.length, sel f) :: tiPairsBy sel (n + f.clip_l.length) rest

theorem tiAllStrings_length (tiName : Option String) :
    ∀ files : List EmbedsFile, (∀ f ∈ files, 1 ≤ f.clip_l.length) →
      (tiAllStrings tiName files).length = sumKL files := by
  intro files
  induction files with
  | nil => intro _; rfl
  | cons f rest ih =>
    intro hks
    show (tiTokenStrings (tiName.getD f.basename) f.clip_l.length ++
      tiAllStrings tiName rest).length = f.clip_l.length + sumKL rest
    rw [List.length_append, tiTokenStrings_length _ _ (hks f (List.mem_cons_self f rest)),
      ih fun g hg => hks g (List.mem_cons_of_mem f hg)]

theorem writePairs_length :
    ∀ (ps : List (List Nat × List (List Int))) (tbl : List (List Int)),
      (writePairs tbl ps).length = tbl.length := by
  intro ps
  induction ps with
  | nil => intro tbl; rfl
  | cons p rest ih =>
    intro tbl
    show (writePairs (writeEmbeds tbl p) rest).length = tbl.length
    rw [ih, writeEmbeds_length]

theorem writePairsBy_getD_below (sel : EmbedsFile → List (List Int)) :
    ∀ (files : List EmbedsFile) (n : Nat) (tbl : List (List Int)) (i : Nat),
      i < n → (writePairs tbl (tiPairsBy sel n files)).getD i [] = tbl.getD i [] := by
  intro files
  induction files with
  | nil => intro n tbl i _; rfl
  | cons f rest ih =>
    intro n tbl i hi
    show (writePairs (writeEmbeds tbl (List.range' n f.clip_l.length, sel f))
      (tiPairsBy sel (n + f.clip_l.length) rest)).getD i [] = tbl.getD i []
    rw [ih (n + f.clip_l.length) _ i (by omega)]
    exact writeEmbeds_getD_below f.clip_l.length (sel f) n tbl i hi

theorem writePairsBy_getD_hit (sel : EmbedsFile → List (List Int)) :
    ∀ (files : List EmbedsFile) (n : Nat) (tbl : List (List Int)) (m j : Nat),
      m < files.length →
      j < (files.getD m noFile).clip_l.length →
      j < (sel (files.getD m noFile)).length →
      n + sumKL files ≤ tbl.length →
      (writePairs tbl (tiPairsBy sel n files)).getD
        (n + sumKL (files.take m) + j) [] = (sel (files.getD m noFile)).getD j [] := by
  intro files
  induction files with
  | nil => intro n tbl m j hm _ _ _; exact absurd hm (by simp)
  | cons f rest ih =>
    intro n tbl m j hm hj hjs hlen
    have hsum : sumKL (f :: rest) = f.clip_l.length + sumKL rest := rfl
    cases m with
    | zero =>
      have hj0 : j < f.clip_l.length := hj
      have hjs0 : j < (sel f).length := hjs
      show (writePairs (writeEmbeds tbl (List.range' n f.clip_l.length, sel f))
        (tiPairsBy sel (n + f.clip_l.length) rest)).getD (n + 0 + j) [] =
          (sel f).getD j []
      have hidx : n + 0 + j = n + j := by omega
      rw [hidx]
      rw [writePairsBy_getD_below sel rest (n + f.clip_l.length) _ (n + j) (by omega)]
      exact writeEmbeds_getD_hit f.clip_l.length (sel f) n tbl j hj0 hjs0 (by omega)
    | succ m' =>
      have hm' : m' < rest.length := by simpa using hm
      have hj' : j < (rest.getD m' noFile).clip_l.length := hj
      have hjs' : j < (sel (rest.getD m' noFile)).length := hjs
      have hlen' : (n + f.clip_l.length) + sumKL rest ≤
          (writeEmbeds tbl (List.range' n f.clip_l.length, sel f)).length := by
        rw [writeEmbeds_length]
        omega
      have hidx : n + sumKL ((f :: rest).take (m' + 1)) + j =
          (n + f.clip_l.length) + sumKL (rest.take m') + j := by
        simp only [List.take_succ_cons, sumKL]
        omega
      show (writePairs (writeEmbeds tbl (List.range' n f.clip_l.length, sel f))
        (tiPairsBy sel (n + f.clip_l.length) rest)).getD
          (n + sumKL ((f :: rest).take (m' + 1)) + j) [] =
        (sel (rest.getD m' noFile)).getD j []
      rw [hidx]
      exact ih (n + f.clip_l.length) _ m' j hm' hj' hjs' hlen'

theorem getD_mem_of_lt (files : List EmbedsFile) (m : Nat)
    (hm : m < files.length) : files.getD m noFile ∈ files := by
  rw [List.getD_eq_getElem?_getD, List.getElem?_eq_getElem hm]
  exact List.getElem_mem hm

theorem loadTILoop_fresh_hf (tiName : Option String) :
    ∀ (files : List EmbedsFile) (tok1 tok2 : Tokenizer)
      (acc1 acc2 : List (List Nat × List (List Int))),
      (tiAllStrings tiName files).Nodup →
      (∀ s ∈ tiAllStrings tiName files, s ∉ tok1.vocab) →
      (∀ s ∈ tiAllStrings tiName files, s ∉ tok2.vocab) →
      (∀ f ∈ files, 1 ≤ f.clip_l.length) →
      loadTILoop hfConvert tiName files tok1 tok2 acc1 acc2 =
        Except.ok (⟨tok1.vocab ++ tiAllStrings tiName files⟩,
          ⟨tok2.vocab ++ tiAllStrings tiName files⟩,
          acc1 ++ tiPairsBy (fun f => f.clip_l) tok1.vocab.length files,
          acc2 ++ tiPairsBy (fun f => f.clip_g) tok2.vocab.length files) := by
  intro files
  induction files with
  | nil =>
    intro tok1 tok2 acc1 acc2 _ _ _ _
    show Except.ok (tok1, tok2, acc1, acc2) = _
    simp [tiAllStrings, tiPairsBy]
  | cons f rest ih =>
    intro tok1 tok2 acc1 acc2 hnd hf1 hf2 hks
    have hkf : 1 ≤ f.clip_l.length := hks f (List.mem_cons_self f rest)
    have hall : tiAllStrings tiName (f :: rest) =
        tiTokenStrings (tiName.getD f.basename) f.clip_l.length ++
          tiAllStrings tiName rest := rfl
    rw [hall] at hnd hf1 hf2
    have hndf : (tiTokenStrings (tiName.getD f.basename) f.clip_l.length).Nodup :=
      (List.nodup_append.mp hnd).1
    have hndr : (tiAllStrings tiName rest).Nodup := (List.nodup_append.mp hnd).2.1
    have hdisj : (tiTokenStrings (tiName.getD f.basename)
        f.clip_l.length).Disjoint (tiAllStrings tiName rest) :=
      (List.nodup_append.mp hnd).2.2
    have hf1f : ∀ s ∈ tiTokenStrings (tiName.getD f.basename) f.clip_l.length,
        s ∉ tok1.vocab := fun s hs => hf1 s (List.mem_append_left _ hs)
    have hf2f : ∀ s ∈ tiTokenStrings (tiName.getD f.basename) f.clip_l.length,
        s ∉ tok2.vocab := fun s hs => hf2 s (List.mem_append_left _ hs)
    have hp := processTIFile_fresh_hf tiName f tok1 tok2 _ rfl hkf hndf hf1f hf2f
    have hfr1 : ∀ s ∈ tiAllStrings tiName rest,
        s ∉ tok1.vocab ++ tiTokenStrings (tiName.getD f.basename) f.clip_l.length := by
      intro s hs hmem
      rcases List.mem_append.mp hmem with h | h
      · exact hf1 s (List.mem_append_right _ hs) h
      · exact hdisj h hs
    have hfr2 : ∀ s ∈ tiAllStrings tiName rest,
        s ∉ tok2.vocab ++ tiTokenStrings (tiName.getD f.basename) f.clip_l.length := by
      intro s hs hmem
      rcases List.mem_append.mp hmem with h | h
      · exact hf2 s (List.mem_append_right _ hs) h
      · exact hdisj h hs
    have hksr : ∀ g ∈ rest, 1 ≤ g.clip_l.length :=
      fun g hg => hks g (List.mem_cons_of_mem f hg)
    show loadTILoop hfConvert tiName (f :: rest) tok1 tok2 acc1 acc2 = _
    simp only [loadTILoop, hp]
    rw [ih ⟨tok1.vocab ++ tiTokenStrings (tiName.getD f.basename) f.clip_l.length⟩
      ⟨tok2.vocab ++ tiTokenStrings (tiName.getD f.basename) f.clip_l.length⟩
      _ _ hndr hfr1 hfr2 hksr]
    simp [List.append_assoc, tiTokenStrings_length _ _ hkf, tiPairsBy, hall]

theorem load_ti_multi_fresh_hf (fill1 fill2 : Nat → List Int) (args : Args)
    (files : List EmbedsFile) (st : TIState)
    (hfe : args.textual_inversion_embeddings = files)
    (hne : files ≠ [])
    (hnd : (tiAllStrings args.textual_inversion_name files).Nodup)
    (hf1 : ∀ s ∈ tiAllStrings args.textual_inversion_name files, s ∉ st.tok1.vocab)
    (hf2 : ∀ s ∈ tiAllStrings args.textual_inversion_name files, s ∉ st.tok2.vocab)
    (hks : ∀ f ∈ files, 1 ≤ f.clip_l.length) :
    load_textual_inversion hfConvert fill1 fill2 args st =
      Except.ok ⟨⟨st.tok1.vocab ++ tiAllStrings args.textual_inversion_name files⟩,
        ⟨st.tok2.vocab ++ tiAllStrings args.textual_inversion_name files⟩,
        writePairs (resizeEmb st.emb1 (st.tok1.len + sumKL files) fill1)
          (tiPairsBy (fun f => f.clip_l) st.tok1.len files),
        writePairs (resizeEmb st.emb2 (st.tok2.len + sumKL files) fill2)
          (tiPairsBy (fun f => f.clip_g) st.tok2.len files)⟩ := by
  unfold load_textual_inversion
  rw [hfe]
  have hje : files.isEmpty = false := by
    cases files with
    | nil => exact absurd rfl hne
    | cons f r => rfl
  rw [hje]
  simp only [Bool.false_eq_true, if_false]
  rw [loadTILoop_fresh_hf args.textual_inversion_name files st.tok1 st.tok2 [] []
    hnd hf1 hf2 hks]
  have hlenall : (tiAllStrings args.textual_inversion_name files).length =
      sumKL files := tiAllStrings_length args.textual_inversion_name files hks
  simp [Tokenizer.len, hlenall]

/-- C6 (amended): every successful textual-inversion load in which each
file's `clip_g` tensor has at least as many rows as its `clip_l` tensor
grows each encoder's input-embedding table to the new vocabulary size
(the old size plus all files' vector counts) and overwrites exactly the
newly assigned rows — file `m`'s contiguous block of `clip_l`-count rows
starting after all previous files' blocks — with that file's loaded
vectors, preserving every pre-existing row of both tables.  (The
amendment adds the row-count hypothesis: when a file's `clip_g` has
fewer rows than its `clip_l`, encoder 2's extra assigned rows keep the
unspecified resize values, per the counterexample.) -/
theorem C6_new_rows_overwritten (fill1 fill2 : Nat → List Int) (args : Args)
    (files : List EmbedsFile) (st : TIState)
    (hfe : args.textual_inversion_embeddings = files)
    (hnd : (tiAllStrings args.textual_inversion_name files).Nodup)
    (hf1 : ∀ s ∈ tiAllStrings args.textual_inversion_name files, s ∉ st.tok1.vocab)
    (hf2 : ∀ s ∈ tiAllStrings args.textual_inversion_name files, s ∉ st.tok2.vocab)
    (hks : ∀ f ∈ files, 1 ≤ f.clip_l.length)
    (hg : ∀ f ∈ files, f.clip_l.length ≤ f.clip_g.length)
    (hlen1 : st.emb1.length = st.tok1.len) (hlen2 : st.emb2.length = st.tok2.len) :
    ∃ st', load_textual_inversion hfConvert fill1 fill2 args st = Except.ok st' ∧
      st'.emb1.length = st.tok1.len + sumKL files ∧
      st'.emb2.length = st.tok2.len + sumKL files ∧
      (∀ i, i < st.tok1.len → st'.emb1.getD i [] = st.emb1.getD i []) ∧
      (∀ i, i < st.tok2.len → st'.emb2.getD i [] = st.emb2.getD i []) ∧
      (∀ m j, m < files.length → j < (files.getD m noFile).clip_l.length →
        st'.emb1.getD (st.tok1.len + sumKL (files.take m) + j) [] =
          (files.getD m noFile).clip_l.getD j []) ∧
      (∀ m j, m < files.length → j < (files.getD m noFile).clip_l.length →
        st'.emb2.getD (st.tok2.len + sumKL (files.take m) + j) [] =
          (files.getD m noFile).clip_g.getD j []) := by
  by_cases hne : files = []
  · subst hne
    refine ⟨st, ?_, by simpa [sumKL] using hlen1.symm ▸ rfl, ?_,
      fun i _ => rfl, fun i _ => rfl,
      fun m j hm => absurd hm (by simp), fun m j hm => absurd hm (by simp)⟩
    · unfold load_textual_inversion
      rw [hfe]
      rfl
    · show st.emb2.length = st.tok2.len + sumKL []
      simpa [sumKL] using hlen2
  · refine ⟨_, load_ti_multi_fresh_hf fill1 fill2 args files st hfe hne hnd hf1 hf2 hks,
      ?_, ?_, ?_, ?_, ?_, ?_⟩
    · show (writePairs (resizeEmb st.emb1 (st.tok1.len + sumKL files) fill1)
        (tiPairsBy (fun f => f.clip_l) st.tok1.len files)).length =
          st.tok1.len + sumKL files
      rw [writePairs_length, resizeEmb_length]
    · show (writePairs (resizeEmb st.emb2 (st.tok2.len + sumKL files) fill2)
        (tiPairsBy (fun f => f.clip_g) st.tok2.len files)).length =
          st.tok2.len + sumKL files
      rw [writePairs_length, resizeEmb_length]
    · intro i hi
      show (writePairs (resizeEmb st.emb1 (st.tok1.len + sumKL files) fill1)
        (tiPairsBy (fun f => f.clip_l) st.tok1.len files)).getD i [] =
          st.emb1.getD i []
      rw [writePairsBy_getD_below (fun f => f.clip_l) files st.tok1.len _ i hi]
      rw [resizeEmb_getD st.emb1 _ fill1 i (by omega)]
      exact getD_irrel st.emb1 i (fill1 i) [] (by omega)
    · intro i hi
      show (writePairs (resizeEmb st.emb2 (st.tok2.len + sumKL files) fill2)
        (tiPairsBy (fun f => f.clip_g) st.tok2.len files)).getD i [] =
          st.emb2.getD i []
      rw [writePairsBy_getD_below (fun f => f.clip_g) files st.tok2.len _ i hi]
      rw [resizeEmb_getD st.emb2 _ fill2 i (by omega)]
      exact getD_irrel st.emb2 i (fill2 i) [] (by omega)
    · intro m j hm hj
      show (writePairs (resizeEmb st.emb1 (st.tok1.len + sumKL files) fill1)
        (tiPairsBy (fun f => f.clip_l) st.tok1.len files)).getD
          (st.tok1.len + sumKL (files.take m) + j) [] =
        (files.getD m noFile).clip_l.getD j []
      exact writePairsBy_getD_hit (fun f => f.clip_l) files st.tok1.len _ m j hm hj hj
        (by rw [resizeEmb_length])
    · intro m j hm hj
      have hgm : (files.getD m noFile).clip_l.length ≤
          (files.getD m noFile).clip_g.length := hg _ (getD_mem_of_lt files m hm)
      show (writePairs (resizeEmb st.emb2 (st.tok2.len + sumKL files) fill2)
        (tiPairsBy (fun f => f.clip_g) st.tok2.len files)).getD
          (st.tok2.len + sumKL (files.take m) + j) [] =
        (files.getD m noFile).clip_g.getD j []
      exact writePairsBy_getD_hit (fun f => f.clip_g) files st.tok2.len _ m j hm hj
        (by show j < (files.getD m noFile).clip_g.length; omega)
        (by rw [resizeEmb_length])

/-- The state after loading the mismatched file `fileMismatch` (2 rows in
`clip_l`, 1 row in `clip_g`) over `stTIInit` with resize initializer
`fillRow`. -/
def stMismatchResult : TIState :=
  ⟨⟨["a", "b", "c", "d", "e", "tok", "tok1"]⟩,
   ⟨["a", "b", "c", "d", "e", "tok", "tok1"]⟩,
   [[0], [1], [2], [3], [4], [10], [11]],
   [[0], [1], [2], [3], [4], [20], [106]]⟩

/-- C6 counterexample: a load of `fileMismatch` (with `clip_g` holding
fewer rows than `clip_l`) is successful, yet encoder 2's second newly
assigned row (id 6) is NOT overwritten with a loaded vector: it keeps
the unspecified resize value `[106]`, which is not a row of `clip_g`.
So "exactly the newly assigned rows are overwritten with the loaded
vectors" fails for this successful load. -/
theorem C6_counterexample :
    load_textual_inversion hfConvert fillRow fillRow
      (argsWithTI [fileMismatch]) stTIInit = Except.ok stMismatchResult ∧
    stMismatchResult.emb2.getD 6 [] = [106] ∧
    [106] ∉ fileMismatch.clip_g := by
  refine ⟨by rfl, by decide, by decide⟩

/-- A second well-formed embedding file with 3 vectors per token, used
to witness a multi-file load. -/
def fileSecond3 : EmbedsFile := ⟨"second", [[30], [31], [32]], [[40], [41], [42]]⟩

/-- C6 (witness): the amended theorem applied to a two-file load
(`fileTok4` then `fileSecond3`) over the concrete initial state. -/
theorem C6_new_rows_overwritten_witness :
    ((tiAllStrings (argsWithTI [fileTok4, fileSecond3]).textual_inversion_name
        [fileTok4, fileSecond3]).Nodup ∧
      (∀ f ∈ ([fileTok4, fileSecond3] : List EmbedsFile), 1 ≤ f.clip_l.length) ∧
      (∀ f ∈ ([fileTok4, fileSecond3] : List EmbedsFile),
        f.clip_l.length ≤ f.clip_g.length)) ∧
    (∃ st', load_textual_inversion hfConvert fillRow fillRow
        (argsWithTI [fileTok4, fileSecond3]) stTIInit = Except.ok st' ∧
      st'.emb1.length = stTIInit.tok1.len + sumKL [fileTok4, fileSecond3] ∧
      st'.emb2.length = stTIInit.tok2.len + sumKL [fileTok4, fileSecond3] ∧
      (∀ i, i < stTIInit.tok1.len → st'.emb1.getD i [] = stTIInit.emb1.getD i []) ∧
      (∀ i, i < stTIInit.tok2.len → st'.emb2.getD i [] = stTIInit.emb2.getD i []) ∧
      (∀ m j, m < ([fileTok4, fileSecond3] : List EmbedsFile).length →
        j < ([fileTok4, fileSecond3].getD m noFile).clip_l.length →
        st'.emb1.getD
          (stTIInit.tok1.len + sumKL ([fileTok4, fileSecond3].take m) + j) [] =
          ([fileTok4, fileSecond3].getD m noFile).clip_l.getD j []) ∧
      (∀ m j, m < ([fileTok4, fileSecond3] : List EmbedsFile).length →
        j < ([fileTok4, fileSecond3].getD m noFile).clip_l.length →
        st'.emb2.getD
          (stTIInit.tok2.len + sumKL ([fileTok4, fileSecond3].take m) + j) [] =
          ([fileTok4, fileSecond3].getD m noFile).clip_g.getD j [])) :=
  ⟨⟨by decide, by decide, by decide⟩,
   C6_new_rows_overwritten fillRow fillRow (argsWithTI [fileTok4, fileSecond3])
     [fileTok4, fileSecond3] stTIInit rfl (by decide) (by decide) (by decide)
     (by decide) (by decide) (by decide) (by decide)⟩

/-- C10: the number of vectors per token is taken solely from `clip_l`;
a `clip_g` tensor with any other number of rows raises no error — the
load succeeds, encoder 2's table still grows by `clip_l`'s row count,
the pairwise overwrite stops at the shorter of the id list and `clip_g`
(so extra vectors of a longer `clip_g` are unused), and assigned rows
beyond `clip_g`'s length keep the unspecified resize values. -/
theorem C10_clip_g_row_mismatch_silent (fill1 fill2 : Nat → List Int) (args : Args)
    (f : EmbedsFile) (st : TIState) (strs : List String)
    (hfe : args.textual_inversion_embeddings = [f])
    (hstrs : strs = tiTokenStrings (args.textual_inversion_name.getD f.basename)
      f.clip_l.length)
    (hk : 1 ≤ f.clip_l.length)
    (hnd : strs.Nodup)
    (hf1 : ∀ s ∈ strs, s ∉ st.tok1.vocab) (hf2 : ∀ s ∈ strs, s ∉ st.tok2.vocab)
    (hlen2 : st.emb2.length = st.tok2.len) :
    ∃ st', load_textual_inversion hfConvert fill1 fill2 args st = Except.ok st' ∧
      st'.emb2.length = st.tok2.len + f.clip_l.length ∧
      (∀ j, j < f.clip_l.length → j < f.clip_g.length →
        st'.emb2.getD (st.tok2.len + j) [] = f.clip_g.getD j []) ∧
      (∀ j, f.clip_g.length ≤ j → j < f.clip_l.length →
        st'.emb2.getD (st.tok2.len + j) [] = fill2 (st.tok2.len + j)) := by
  refine ⟨_, load_ti_single_fresh_hf fill1 fill2 args f st strs hfe hstrs hk hnd hf1 hf2,
    ?_, ?_, ?_⟩
  · show (writeEmbeds (resizeEmb st.emb2 (st.tok2.len + f.clip_l.length) fill2)
      (List.range' st.tok2.len f.clip_l.length, f.clip_g)).length =
        st.tok2.len + f.clip_l.length
    rw [writeEmbeds_length, resizeEmb_length]
  · intro j hj hjg
    show (writeEmbeds (resizeEmb st.emb2 (st.tok2.len + f.clip_l.length) fill2)
      (List.range' st.tok2.len f.clip_l.length, f.clip_g)).getD (st.tok2.len + j) [] =
        f.clip_g.getD j []
    rw [writeEmbeds_getD_hit f.clip_l.length f.clip_g st.tok2.len _ j hj hjg
      (by rw [resizeEmb_length]; omega)]
  · intro j hjg hj
    show (writeEmbeds (resizeEmb st.emb2 (st.tok2.len + f.clip_l.length) fill2)
      (List.range' st.tok2.len f.clip_l.length, f.clip_g)).getD (st.tok2.len + j) [] =
        fill2 (st.tok2.len + j)
    rw [writeEmbeds_getD_above f.clip_l.length f.clip_g st.tok2.len _ (st.tok2.len + j)
      (by omega)]
    rw [resizeEmb_getD st.emb2 _ fill2 (st.tok2.len + j) (by omega)]
    exact getD_out st.emb2 (st.tok2.len + j) (fill2 (st.tok2.len + j)) (by omega)

/-- C10 (witness): the theorem applied to the mismatched file
`fileMismatch` (2 `clip_l` rows, 1 `clip_g` row): the load succeeds,
assigned row 5 gets the single loaded vector, assigned row 6 keeps the
resize value. -/
theorem C10_clip_g_row_mismatch_silent_witness :
    (1 ≤ fileMismatch.clip_l.length ∧
      stTIInit.emb2.length = stTIInit.tok2.len) ∧
    (∃ st', load_textual_inversion hfConvert fillRow fillRow
        (argsWithTI [fileMismatch]) stTIInit = Except.ok st' ∧
      st'.emb2.length = stTIInit.tok2.len + fileMismatch.clip_l.length ∧
      (∀ j, j < fileMismatch.clip_l.length → j < fileMismatch.clip_g.length →
        st'.emb2.getD (stTIInit.tok2.len + j) [] = fileMismatch.clip_g.getD j []) ∧
      (∀ j, fileMismatch.clip_g.length ≤ j → j < fileMismatch.clip_l.length →
        st'.emb2.getD (stTIInit.tok2.len + j) [] = fillRow (stTIInit.tok2.len + j))) :=
  ⟨⟨by decide, by decide⟩,
   C10_clip_g_row_mismatch_silent fillRow fillRow (argsWithTI [fileMismatch])
     fileMismatch stTIInit ["tok", "tok1"] rfl (by decide) (by decide) (by decide)
     (by decide) (by decide) (by decide)⟩

/-! ### Setup argument checking (`assert_extra_args`, lines 22-35) -/

/-- Fatal configuration errors raised while checking arguments at setup
(Python `assert` failures in `assert_extra_args` and its callees). -/
inductive ConfigError where
  | parentAssertFailed
  | sdxlArgsFailed
  | cacheNotCacheable
  | trainTEWithCache
  | bucketResoFailed
deriving DecidableEq, Repr

/-- `SdxlNetworkTrainer.assert_extra_args` (lines 22-35), in source
order: the parent-class check and `verify_sdxl_training_args` (external
collaborators, modelled as boolean outcomes), then — only when
`cache_text_encoder_outputs` is set — the dataset's
`is_text_encoder_output_cacheable()` assertion, then the
`network_train_unet_only or not cache_text_encoder_outputs` assertion,
then `verify_bucket_reso_steps(32)` (external, boolean outcome). -/
def assert_extra_args (parentOk sdxlOk cacheable bucketOk32 : Bool)
    (args : Args) : Except ConfigError Unit :=
  if !parentOk then Except.error ConfigError.parentAssertFailed
  else if !sdxlOk then Except.error ConfigError.sdxlArgsFailed
  else if args.cache_text_encoder_outputs && !cacheable then
    Except.error ConfigError.cacheNotCacheable
  else if !(args.network_train_unet_only || !args.cache_text_encoder_outputs) then
    Except.error ConfigError.trainTEWithCache
  else if !bucketOk32 then Except.error ConfigError.bucketResoFailed
  else Except.ok ()

/-- Modelled from the spec: the Trainer Shell's setup ordering lives in
`train_network.NetworkTrainer.train`, which is not among the sources.
Per the spec's control flow ("Trainer Shell asks the Conditioning Cache
to prime itself once before training" and "cache mode preconditions
violated — detected eagerly, before any compute"), setup runs
`assert_extra_args` first and only on success asks the Conditioning
Cache to prime; a failed check aborts with the error and leaves the
trainer state untouched (no caching pass, no encoder invocation). -/
def setupThenPrime (parentOk sdxlOk cacheable bucketOk32 : Bool) (args : Args)
    (accDevice : Device) (isMain : Bool) (weight_dtype : DType) (st : TrainerState) :
    Option ConfigError × TrainerState :=
  match assert_extra_args parentOk sdxlOk cacheable bucketOk32 args with
  | Except.error e => (some e, st)
  | Except.ok () =>
    (none, cache_text_encoder_outputs_if_needed args accDevice isMain weight_dtype st)

/-- C3: when CACHED mode is selected, the two preconditions (dataset
cacheability, unet-only training) are checked at setup before any
caching compute: if either is violated (and the preceding external
checks pass), setup fails with the corresponding configuration error and
the trainer state is returned untouched — in particular the caching-pass
call log is empty of new entries, so no encoder invocation or caching
compute has occurred. -/
theorem C3_cached_mode_preconditions (cacheable bucketOk32 : Bool) (args : Args)
    (accDevice : Device) (isMain : Bool) (weight_dtype : DType) (st : TrainerState)
    (hcache : args.cache_text_encoder_outputs = true)
    (hviol : cacheable = false ∨ args.network_train_unet_only = false) :
    (setupThenPrime true true cacheable bucketOk32 args accDevice isMain
      weight_dtype st).2 = st ∧
    (cacheable = false →
      (setupThenPrime true true cacheable bucketOk32 args accDevice isMain
        weight_dtype st).1 = some ConfigError.cacheNotCacheable) ∧
    (cacheable = true → args.network_train_unet_only = false →
      (setupThenPrime true true cacheable bucketOk32 args accDevice isMain
        weight_dtype st).1 = some ConfigError.trainTEWithCache) := by
  rcases hviol with hv | hv
  · subst hv
    refine ⟨?_, fun _ => ?_, fun hc _ => by simp at hc⟩ <;>
      simp [setupThenPrime, assert_extra_args, hcache]
  · by_cases hc : cacheable
    · refine ⟨?_, fun h => by simp [h] at hc, fun _ _ => ?_⟩ <;>
        simp [setupThenPrime, assert_extra_args, hcache, hc, hv]
    · simp only [Bool.not_eq_true] at hc
      subst hc
      refine ⟨?_, fun _ => ?_, fun h => by simp at h⟩ <;>
        simp [setupThenPrime, assert_extra_args, hcache]

/-- A CACHED-mode configuration that also asks to train the text
encoders (`network_train_unet_only` off). -/
def argsCachedTrainTE : Args :=
  ⟨true, false, false, false, false, 75, [], none⟩

/-- C3 (witness): a CACHED-mode configuration that also asks to train
the text encoders (unet-only off), with a cacheable dataset: setup fails
with `trainTEWithCache` and the state is untouched. -/
theorem C3_cached_mode_preconditions_witness :
    argsCachedTrainTE.cache_text_encoder_outputs = true ∧
    ((setupThenPrime true true true true argsCachedTrainTE Device.cuda true
        DType.float16 stAllCuda).2 = stAllCuda ∧
     (setupThenPrime true true true true argsCachedTrainTE Device.cuda true
        DType.float16 stAllCuda).1 = some ConfigError.trainTEWithCache) :=
  ⟨by decide,
   (C3_cached_mode_preconditions true true argsCachedTrainTE Device.cuda true
      DType.float16 stAllCuda (by decide) (Or.inr (by decide))).1,
   (C3_cached_mode_preconditions true true argsCachedTrainTE Device.cuda true
      DType.float16 stAllCuda (by decide) (Or.inr (by decide))).2.2 rfl (by decide)⟩

/-! ### Tensors, batches, the conditioning assembler (`get_text_cond`,
lines 153-204) and the denoising invoker (`call_unet`, lines 206-221) -/

/-- A torch tensor, reduced to what the claims observe: shape, dtype,
device and (flat) payload.  Residency moves and dtype casts update the
corresponding field and keep the payload. -/
structure Tensor where
  shape : List Nat
  dtype : DType
  device : Device
  data : List Int
deriving DecidableEq, Repr

/-- `tensor.to(device)`. -/
def Tensor.to (t : Tensor) (d : Device) : Tensor := { t with device := d }

/-- `tensor.to(dtype)`. -/
def Tensor.toDtype (t : Tensor) (dt : DType) : Tensor := { t with dtype := dt }

/-- `torch.cat([a, b], dim)`: the shape entry at `dim` is the sum of the
two inputs' entries there; payloads concatenate; device and dtype follow
the first input. -/
def torchCat (a b : Tensor) (dim : Nat) : Tensor :=
  { shape := a.shape.set dim (a.shape.getD dim 0 + b.shape.getD dim 0),
    dtype := a.dtype, device := a.device, data := a.data ++ b.data }

/-- A training batch, with the two tokenized input-id tensors, the three
optional precomputed text-encoder outputs (outer `Option`: the key is
present; inner `Option`: the stored value is non-null), and the
per-sample geometry metadata. -/
structure Batch where
  input_ids : Tensor
  input_ids2 : Tensor
  text_encoder_outputs1_list : Option (Option Tensor)
  text_encoder_outputs2_list : Option (Option Tensor)
  text_encoder_pool2_list : Option (Option Tensor)
  original_sizes_hw : List (Int × Int)
  crop_top_lefts : List (Int × Int)
  target_sizes_hw : List (Int × Int)
deriving DecidableEq, Repr

/-- Failures of a mapping access on the batch: a missing key
(Python `KeyError`) or a `.to(...)` call on a stored `None`
(Python `AttributeError`). -/
inductive FieldAccessError where
  | keyError (key : String)
  | noneAccess (key : String)
deriving DecidableEq, Repr

/-- The branch condition of line 154, negated: the cached path is taken
iff the first precomputed-output field is present and non-null. -/
def usesCachedPath (batch : Batch) : Bool :=
  match batch.text_encoder_outputs1_list with
  | some (some _) => true
  | _ => false

/-- The Batch data-model invariant: the precomputed-output fields are
all present and valid, or all absent. -/
def batchOutputsConsistent (batch : Batch) : Prop :=
  (∃ t1 t2 p, batch.text_encoder_outputs1_list = some (some t1) ∧
    batch.text_encoder_outputs2_list = some (some t2) ∧
    batch.text_encoder_pool2_list = some (some p)) ∨
  (batch.text_encoder_outputs1_list = none ∧
   batch.text_encoder_outputs2_list = none ∧
   batch.text_encoder_pool2_list = none)

/-- `SdxlNetworkTrainer.get_text_cond` (lines 153-204).  When the first
precomputed-output field is absent or null: move the input-id tensors to
the compute device and invoke the external
`train_util.get_hidden_states_sdxl` (passed as the function parameter
`get_hidden_states_sdxl`, collapsing the tokenizers and encoders it
closes over), with reduced precision only under `full_fp16`.  Otherwise:
read the three tensors from the batch, each moved to the compute device
and cast to the training dtype; a missing or null second/third field
fails the access. -/
def get_text_cond
    (get_hidden_states_sdxl : Nat → Tensor → Tensor → Option DType →
      Tensor × Tensor × Tensor)
    (args_max_token_length : Nat) (args_full_fp16 : Bool)
    (accDevice : Device) (weight_dtype : DType) (batch : Batch) :
    Except FieldAccessError (Tensor × Tensor × Tensor) :=
  match batch.text_encoder_outputs1_list with
  | none | some none =>
    let input_ids1 := batch.input_ids.to accDevice
    let input_ids2 := batch.input_ids2.to accDevice
    Except.ok (get_hidden_states_sdxl args_max_token_length input_ids1 input_ids2
      (if args_full_fp16 then some weight_dtype else none))
  | some (some h1) =>
    let encoder_hidden_states1 := (h1.to accDevice).toDtype weight_dtype
    match batch.text_encoder_outputs2_list with
    | none => Except.error (FieldAccessError.keyError "text_encoder_outputs2_list")
    | some none => Except.error (FieldAccessError.noneAccess "text_encoder_outputs2_list")
    | some (some h2) =>
      let encoder_hidden_states2 := (h2.to accDevice).toDtype weight_dtype
      match batch.text_encoder_pool2_list with
      | none => Except.error (FieldAccessError.keyError "text_encoder_pool2_list")
      | some none => Except.error (FieldAccessError.noneAccess "text_encoder_pool2_list")
      | some (some p2) =>
        Except.ok (encoder_hidden_states1, encoder_hidden_states2,
          (p2.to accDevice).toDtype weight_dtype)

/-- `SdxlNetworkTrainer.call_unet` (lines 206-221): cast the noised
latents to the training dtype, build the size/crop embedding via the
external `sdxl_train_util.get_size_embeddings` (function parameter) and
cast it, concatenate `pool2` with it along dim 1 into the vector
embedding, concatenate the two hidden states along dim 2 into the text
embedding, cast both, and return the unet's output unmodified. -/
def call_unet
    (get_size_embeddings : List (Int × Int) → List (Int × Int) → List (Int × Int) →
      Device → Tensor)
    (unet : Tensor → Tensor → Tensor → Tensor → Tensor)
    (accDevice : Device) (weight_dtype : DType)
    (noisy_latents timesteps : Tensor)
    (text_conds : Tensor × Tensor × Tensor) (batch : Batch) : Tensor :=
  let noisy_latents := noisy_latents.toDtype weight_dtype
  let embs := (get_size_embeddings batch.original_sizes_hw batch.crop_top_lefts
    batch.target_sizes_hw accDevice).toDtype weight_dtype
  let encoder_hidden_states1 := text_conds.1
  let encoder_hidden_states2 := text_conds.2.1
  let pool2 := text_conds.2.2
  let vector_embedding := (torchCat pool2 embs 1).toDtype weight_dtype
  let text_embedding :=
    (torchCat encoder_hidden_states1 encoder_hidden_states2 2).toDtype weight_dtype
  unet noisy_latents timesteps text_embedding vector_embedding

theorem torchCat_featureDim (a b : Tensor) (dim : Nat) (h : dim < a.shape.length) :
    (torchCat a b dim).shape.getD dim 0 =
      a.shape.getD dim 0 + b.shape.getD dim 0 := by
  unfold torchCat
  rw [List.getD_eq_getElem?_getD,
    List.getElem?_set_eq_of_lt (a.shape.getD dim 0 + b.shape.getD dim 0) h]
  rfl

/-- C4: for every batch, `call_unet` invokes the denoising network with
exactly (cast latents, timesteps, text embedding, vector embedding) and
returns its output unmodified, where the vector embedding is `pool2`
concatenated with the cast size/crop embedding along the feature axis
(dim 1), the text embedding is hidden-state-1 concatenated with
hidden-state-2 along the feature axis (dim 2), and latents and both
embeddings are cast to the training dtype; the embeddings' feature
dimensions are the sums of their parts'. -/
theorem C4_invoker_concats_and_returns
    (gse : List (Int × Int) → List (Int × Int) → List (Int × Int) → Device → Tensor)
    (unet : Tensor → Tensor → Tensor → Tensor → Tensor)
    (d : Device) (w : DType) (noisy ts e1 e2 p2 : Tensor) (batch : Batch)
    (hp : 1 < p2.shape.length) (he : 2 < e1.shape.length) :
    call_unet gse unet d w noisy ts (e1, e2, p2) batch =
      unet (noisy.toDtype w) ts
        ((torchCat e1 e2 2).toDtype w)
        ((torchCat p2 ((gse batch.original_sizes_hw batch.crop_top_lefts
          batch.target_sizes_hw d).toDtype w) 1).toDtype w) ∧
    ((torchCat p2 ((gse batch.original_sizes_hw batch.crop_top_lefts
        batch.target_sizes_hw d).toDtype w) 1).toDtype w).shape.getD 1 0 =
      p2.shape.getD 1 0 + (gse batch.original_sizes_hw batch.crop_top_lefts
        batch.target_sizes_hw d).shape.getD 1 0 ∧
    ((torchCat e1 e2 2).toDtype w).shape.getD 2 0 =
      e1.shape.getD 2 0 + e2.shape.getD 2 0 ∧
    ((torchCat p2 ((gse batch.original_sizes_hw batch.crop_top_lefts
      batch.target_sizes_hw d).toDtype w) 1).toDtype w).dtype = w ∧
    ((torchCat e1 e2 2).toDtype w).dtype = w ∧
    (noisy.toDtype w).dtype = w := by
  refine ⟨rfl, ?_, ?_, rfl, rfl, rfl⟩
  · exact torchCat_featureDim p2 ((gse batch.original_sizes_hw batch.crop_top_lefts
      batch.target_sizes_hw d).toDtype w) 1 hp
  · exact torchCat_featureDim e1 e2 2 he

/-- C5: for every batch whose three precomputed-output fields are
present and valid, the conditioning assembler returns exactly those
three tensors, each moved to the compute device and cast to the
training dtype, and the result does not depend on the live text-encoder
function (neither encoder is invoked). -/
theorem C5_cached_triple_from_batch
    (gh gh' : Nat → Tensor → Tensor → Option DType → Tensor × Tensor × Tensor)
    (mtl : Nat) (ff : Bool) (d : Device) (w : DType) (batch : Batch)
    (h1 h2 p2 : Tensor)
    (e1 : batch.text_encoder_outputs1_list = some (some h1))
    (e2 : batch.text_encoder_outputs2_list = some (some h2))
    (e3 : batch.text_encoder_pool2_list = some (some p2)) :
    get_text_cond gh mtl ff d w batch =
      Except.ok ((h1.to d).toDtype w, (h2.to d).toDtype w, (p2.to d).toDtype w) ∧
    get_text_cond gh mtl ff d w batch = get_text_cond gh' mtl ff d w batch := by
  unfold get_text_cond
  rw [e1, e2, e3]
  exact ⟨rfl, rfl⟩

/-- C9: the assembler's path choice depends only on the first
precomputed-output field: under the data-model invariant (all three
precomputed fields present and valid, or all absent) the assembler never
fails with a field-access error, and whenever the first field is absent
or null the result is exactly the live-path value, which reads neither
of the other two precomputed fields. -/
theorem C9_branch_by_first_field_safety
    (gh : Nat → Tensor → Tensor → Option DType → Tensor × Tensor × Tensor)
    (mtl : Nat) (ff : Bool) (d : Device) (w : DType) (batch : Batch) :
    (batchOutputsConsistent batch →
      (get_text_cond gh mtl ff d w batch).isOk = true) ∧
    (usesCachedPath batch = false →
      get_text_cond gh mtl ff d w batch =
        Except.ok (gh mtl (batch.input_ids.to d) (batch.input_ids2.to d)
          (if ff then some w else none))) := by
  constructor
  · intro hinv
    rcases hinv with ⟨t1, t2, p, f1, f2, f3⟩ | ⟨f1, f2, f3⟩
    · unfold get_text_cond
      rw [f1, f2, f3]
      rfl
    · unfold get_text_cond
      rw [f1]
      rfl
  · intro hlive
    unfold usesCachedPath at hlive
    unfold get_text_cond
    rcases hb : batch.text_encoder_outputs1_list with _ | ob
    · rfl
    · rcases ob with _ | t
      · rfl
      · rw [hb] at hlive
        simp at hlive

/-! ### Concrete batch instances for witnesses -/

/-- A cached hidden-state-1 tensor (batch 2, seq 77, hidden 768). -/
def teOut1 : Tensor := ⟨[2, 77, 768], DType.float32, Device.cpu, [5]⟩

/-- A cached hidden-state-2 tensor (batch 2, seq 77, hidden 1280). -/
def teOut2 : Tensor := ⟨[2, 77, 1280], DType.float32, Device.cpu, [6]⟩

/-- A cached pooled-vector tensor (batch 2, pooled 1280). -/
def tePool2 : Tensor := ⟨[2, 1280], DType.float32, Device.cpu, [7]⟩

/-- Tokenized input ids for encoder 1. -/
def idsT1 : Tensor := ⟨[2, 77], DType.float32, Device.cpu, [3]⟩

/-- Tokenized input ids for encoder 2. -/
def idsT2 : Tensor := ⟨[2, 77], DType.float32, Device.cpu, [4]⟩

/-- A CACHED-mode batch: all three precomputed fields present and valid. -/
def batchCachedEx : Batch :=
  ⟨idsT1, idsT2, some (some teOut1), some (some teOut2), some (some tePool2),
   [(512, 512), (512, 512)], [(0, 0), (0, 0)], [(512, 512), (512, 512)]⟩

/-- A LIVE-mode batch: all three precomputed fields absent. -/
def batchLiveEx : Batch :=
  ⟨idsT1, idsT2, none, none, none,
   [(512, 512), (512, 512)], [(0, 0), (0, 0)], [(512, 512), (512, 512)]⟩

/-- A stand-in for `train_util.get_hidden_states_sdxl`. -/
def ghStub : Nat → Tensor → Tensor → Option DType → Tensor × Tensor × Tensor :=
  fun _ i1 _ _ => (i1, i1, i1)

/-- A second, different stand-in live encoder, used to exhibit that the
cached path ignores the live encoder entirely. -/
def ghStub2 : Nat → Tensor → Tensor → Option DType → Tensor × Tensor × Tensor :=
  fun _ _ i2 _ => (i2, i2, i2)

/-- A stand-in for `sdxl_train_util.get_size_embeddings`, producing a
(batch 2, 512)-shaped embedding on the requested device. -/
def gseStub : List (Int × Int) → List (Int × Int) → List (Int × Int) → Device → Tensor :=
  fun _ _ _ dev => ⟨[2, 512], DType.float32, dev, [9]⟩

/-- A stand-in denoising network returning its latent input. -/
def unetStub : Tensor → Tensor → Tensor → Tensor → Tensor := fun a _ _ _ => a

/-- A latent tensor and a timestep tensor for the invoker witness. -/
def latentEx : Tensor := ⟨[2, 4, 64, 64], DType.float32, Device.cuda, [8]⟩

/-- Per-sample timesteps. -/
def timestepsEx : Tensor := ⟨[2], DType.float32, Device.cuda, [10]⟩

/-- C4 (witness): the invoker theorem at concrete tensors; the vector
embedding's feature dimension is 1280 + 512 and the text embedding's is
768 + 1280. -/
theorem C4_invoker_concats_and_returns_witness :
    1 < tePool2.shape.length ∧ 2 < teOut1.shape.length ∧
    (call_unet gseStub unetStub Device.cuda DType.float16 latentEx timestepsEx
        (teOut1, teOut2, tePool2) batchCachedEx =
      unetStub (latentEx.toDtype DType.float16) timestepsEx
        ((torchCat teOut1 teOut2 2).toDtype DType.float16)
        ((torchCat tePool2 ((gseStub batchCachedEx.original_sizes_hw
            batchCachedEx.crop_top_lefts batchCachedEx.target_sizes_hw
            Device.cuda).toDtype DType.float16) 1).toDtype DType.float16) ∧
      ((torchCat tePool2 ((gseStub batchCachedEx.original_sizes_hw
          batchCachedEx.crop_top_lefts batchCachedEx.target_sizes_hw
          Device.cuda).toDtype DType.float16) 1).toDtype DType.float16).shape.getD 1 0 =
        tePool2.shape.getD 1 0 + (gseStub batchCachedEx.original_sizes_hw
          batchCachedEx.crop_top_lefts batchCachedEx.target_sizes_hw
          Device.cuda).shape.getD 1 0 ∧
      ((torchCat teOut1 teOut2 2).toDtype DType.float16).shape.getD 2 0 =
        teOut1.shape.getD 2 0 + teOut2.shape.getD 2 0 ∧
      ((torchCat tePool2 ((gseStub batchCachedEx.original_sizes_hw
          batchCachedEx.crop_top_lefts batchCachedEx.target_sizes_hw
          Device.cuda).toDtype DType.float16) 1).toDtype DType.float16).dtype =
        DType.float16 ∧
      ((torchCat teOut1 teOut2 2).toDtype DType.float16).dtype = DType.float16 ∧
      (latentEx.toDtype DType.float16).dtype = DType.float16) :=
  ⟨by decide, by decide,
   C4_invoker_concats_and_returns gseStub unetStub Device.cuda DType.float16
     latentEx timestepsEx teOut1 teOut2 tePool2 batchCachedEx (by decide) (by decide)⟩

/-- C5 (witness): the cached-path theorem at the concrete cached batch,
for two different live-encoder stand-ins. -/
theorem C5_cached_triple_from_batch_witness :
    batchCachedEx.text_encoder_outputs1_list = some (some teOut1) ∧
    batchCachedEx.text_encoder_outputs2_list = some (some teOut2) ∧
    batchCachedEx.text_encoder_pool2_list = some (some tePool2) ∧
    (get_text_cond ghStub 75 false Device.cuda DType.float16 batchCachedEx =
      Except.ok ((teOut1.to Device.cuda).toDtype DType.float16,
        (teOut2.to Device.cuda).toDtype DType.float16,
        (tePool2.to Device.cuda).toDtype DType.float16) ∧
     get_text_cond ghStub 75 false Device.cuda DType.float16 batchCachedEx =
      get_text_cond ghStub2 75 false Device.cuda DType.float16 batchCachedEx) :=
  ⟨rfl, rfl, rfl,
   C5_cached_triple_from_batch ghStub ghStub2 75 false Device.cuda DType.float16
     batchCachedEx teOut1 teOut2 tePool2 rfl rfl rfl⟩

/-- C9 (witness): the safety theorem applied to a consistent cached
batch (no field-access failure) and to a live batch (result is the
live-path value, reading neither of the other precomputed fields). -/
theorem C9_branch_by_first_field_safety_witness :
    batchOutputsConsistent batchCachedEx ∧
    (get_text_cond ghStub 75 false Device.cuda DType.float16 batchCachedEx).isOk =
      true ∧
    usesCachedPath batchLiveEx = false ∧
    get_text_cond ghStub 75 false Device.cuda DType.float16 batchLiveEx =
      Except.ok (ghStub 75 (batchLiveEx.input_ids.to Device.cuda)
        (batchLiveEx.input_ids2.to Device.cuda)
        (if false then some DType.float16 else none)) :=
  ⟨Or.inl ⟨teOut1, teOut2, tePool2, rfl, rfl, rfl⟩,
   (C9_branch_by_first_field_safety ghStub 75 false Device.cuda DType.float16
     batchCachedEx).1 (Or.inl ⟨teOut1, teOut2, tePool2, rfl, rfl, rfl⟩),
   rfl,
   (C9_branch_by_first_field_safety ghStub 75 false Device.cuda DType.float16
     batchLiveEx).2 rfl⟩
